import Mathlib

/-!
Verification of the flashcard application's storage and study-session layers
(`src/flashcards.py`): `ScoreStore`, `DeckStorage` and `AppController` are
shallowly embedded as Lean definitions, and the specified properties are
settled as theorems about those definitions.

Modelling conventions:
  - Python dicts become association lists; `setdefault`-then-mutate becomes
    `setIn` on the association list.
  - Python exceptions (`KeyError` from `_resolve`, `OSError` and
    `JSONDecodeError` from `_load`) become `Option`: `none` is a raised
    exception, caught or propagated exactly where the source catches or
    propagates it.
  - The filesystem is the `disk` field of `DS`: a deck file is present and
    parsable (`DeckFile.good`), present but unreadable or corrupt
    (`DeckFile.corrupt`), or absent (no entry).
  - `ScoreStore._rel` (absolute path to portable relative key) is modelled as
    the identity: deck paths are represented directly by their canonical
    relative string.
  - `random.shuffle` is modelled by an explicit permutation oracle
    `shuf : List Card → List Card`, constrained to permute where a theorem
    needs it.
-/

namespace Flashcards

/-- Lookup in an association list (a Python dict's `get` without default):
the value at the first matching key. -/
def lookupIn {κ α : Type} [DecidableEq κ] : List (κ × α) → κ → Option α
  | [], _ => none
  | (k', v) :: rest, k => if k' = k then some v else lookupIn rest k

/-- Lookup with a default (Python's `dict.get(k, d)`). -/
def getIn {κ α : Type} [DecidableEq κ] (m : List (κ × α)) (k : κ) (d : α) : α :=
  (lookupIn m k).getD d

/-- Store a value at a key (Python's `dict[k] = v`): replace the first
matching entry, or append a new entry. -/
def setIn {κ α : Type} [DecidableEq κ] : List (κ × α) → κ → α → List (κ × α)
  | [], k, v => [(k, v)]
  | (k', v') :: rest, k, v =>
    if k' = k then (k', v) :: rest else (k', v') :: setIn rest k v

theorem lookupIn_setIn_self {κ α : Type} [DecidableEq κ]
    (m : List (κ × α)) (k : κ) (v : α) : lookupIn (setIn m k v) k = some v := by
  induction m with
  | nil => simp [setIn, lookupIn]
  | cons e rest ih =>
    by_cases h : e.1 = k <;> simp [setIn, lookupIn, h, ih]

theorem lookupIn_setIn_ne {κ α : Type} [DecidableEq κ]
    (m : List (κ × α)) (k k' : κ) (v : α) (h : k' ≠ k) :
    lookupIn (setIn m k v) k' = lookupIn m k' := by
  induction m with
  | nil =>
    simp only [setIn, lookupIn]
    rw [if_neg fun h' => h h'.symm]
  | cons e rest ih =>
    by_cases h1 : e.1 = k <;> by_cases h2 : e.1 = k' <;>
      simp_all [setIn, lookupIn]

/-- `ScoreStore` (`flashcards.py`): per-card `(correct, incorrect)` tallies,
keyed by portable deck path, then by the card's local id rendered as a
string (`str(local_id)`). -/
structure ScoreStore where
  data : List (String × List (String × (Nat × Nat)))
deriving DecidableEq

/-- Raw read of a tally at string keys: the inner workings of
`self._data.get(rel, \x7b\x7d).get(key, [0, 0])`. -/
def ScoreStore.getS (s : ScoreStore) (deck key : String) : Nat × Nat :=
  getIn (getIn s.data deck []) key (0, 0)

/-- `ScoreStore.get`: the `(correct, incorrect)` pair for one card, `(0, 0)`
if the card was never attempted.  Total: it never fails on a missing key. -/
def ScoreStore.get (s : ScoreStore) (deck : String) (lid : Nat) : Nat × Nat :=
  s.getS deck (toString lid)

/-- `ScoreStore.record_correct`: `setdefault` the deck entry and the card
entry, then increment the correct counter by one (the flush to disk is the
new store value itself). -/
def ScoreStore.record_correct (s : ScoreStore) (deck : String) (lid : Nat) : ScoreStore :=
  let inner := getIn s.data deck []
  let p := getIn inner (toString lid) (0, 0)
  ⟨setIn s.data deck (setIn inner (toString lid) (p.1 + 1, p.2))⟩

/-- `ScoreStore.record_incorrect`: symmetric, increments the incorrect
counter. -/
def ScoreStore.record_incorrect (s : ScoreStore) (deck : String) (lid : Nat) : ScoreStore :=
  let inner := getIn s.data deck []
  let p := getIn inner (toString lid) (0, 0)
  ⟨setIn s.data deck (setIn inner (toString lid) (p.1, p.2 + 1))⟩

/-- A key that was never recorded: no tally entry exists for it. -/
def ScoreStore.unrecorded (s : ScoreStore) (deck : String) (lid : Nat) : Prop :=
  lookupIn (getIn s.data deck []) (toString lid) = none

instance (s : ScoreStore) (deck : String) (lid : Nat) :
    Decidable (s.unrecorded deck lid) := by
  unfold ScoreStore.unrecorded; infer_instance

/-- Run a finite interleaving of scoring calls on one key: `true` is a
`record_correct` call, `false` a `record_incorrect` call. -/
def ScoreStore.applyCalls (s : ScoreStore) (deck : String) (lid : Nat) :
    List Bool → ScoreStore
  | [] => s
  | e :: evs =>
    (if e then s.record_correct deck lid else s.record_incorrect deck lid).applyCalls
      deck lid evs

theorem ScoreStore.get_record_correct_self (s : ScoreStore) (deck : String) (lid : Nat) :
    (s.record_correct deck lid).get deck lid
      = ((s.get deck lid).1 + 1, (s.get deck lid).2) := by
  simp [ScoreStore.get, ScoreStore.getS, ScoreStore.record_correct, getIn,
    lookupIn_setIn_self]

theorem ScoreStore.get_record_incorrect_self (s : ScoreStore) (deck : String) (lid : Nat) :
    (s.record_incorrect deck lid).get deck lid
      = ((s.get deck lid).1, (s.get deck lid).2 + 1) := by
  simp [ScoreStore.get, ScoreStore.getS, ScoreStore.record_incorrect, getIn,
    lookupIn_setIn_self]

theorem ScoreStore.get_applyCalls (deck : String) (lid : Nat) :
    ∀ (evs : List Bool) (s : ScoreStore),
      (s.applyCalls deck lid evs).get deck lid
        = ((s.get deck lid).1 + evs.count true, (s.get deck lid).2 + evs.count false)
  | [], s => by simp [ScoreStore.applyCalls]
  | e :: evs, s => by
    cases e <;>
      simp [ScoreStore.applyCalls, ScoreStore.get_applyCalls deck lid evs,
        ScoreStore.get_record_correct_self, ScoreStore.get_record_incorrect_self,
        List.count_cons] <;>
      omega

/-- C1: for a key never previously recorded, any finite interleaving of
`record_correct` and `record_incorrect` calls on that key leaves the tally at
exactly the number of calls of each kind, and `get` returns `(0, 0)` before
any call (and never fails for a missing key, being total). -/
theorem scoreStore_unrecorded_tally (s : ScoreStore) (deck : String) (lid : Nat)
    (evs : List Bool) (h : s.unrecorded deck lid) :
    s.get deck lid = (0, 0) ∧
    (s.applyCalls deck lid evs).get deck lid = (evs.count true, evs.count false) := by
  have h0 : s.get deck lid = (0, 0) := by
    simp only [ScoreStore.unrecorded, getIn] at h
    simp [ScoreStore.get, ScoreStore.getS, getIn, h]
  refine ⟨h0, ?_⟩
  rw [ScoreStore.get_applyCalls, h0]
  simp

/-- Witness for C1 at a concrete store, key and interleaving. -/
theorem scoreStore_unrecorded_tally_witness :
    (ScoreStore.mk []).get "deckA.json" 1 = (0, 0) ∧
    ((ScoreStore.mk []).applyCalls "deckA.json" 1 [true, false, true]).get "deckA.json" 1
      = (2, 1) :=
  scoreStore_unrecorded_tally ⟨[]⟩ "deckA.json" 1 [true, false, true] (by decide)

/-- A card record as stored inside a deck's JSON file. -/
structure StoredCard where
  id : Nat
  front : String
  back : String
  card_type : String
  choices : Option (List String)
  tags : List String
deriving DecidableEq

/-- The parsed contents of one deck file: display name, deck-level tags, the
next-local-id counter and the ordered card list. -/
structure DeckData where
  name : String
  tags : List String
  next_id : Nat
  cards : List StoredCard
deriving DecidableEq

/-- A deck file that exists on disk: parsable, or unreadable/corrupt. -/
inductive DeckFile
  | corrupt
  | good (d : DeckData)
deriving DecidableEq

/-- The state of `DeckStorage`: deck files on disk, the bidirectional
session-id registry, the next session id, and the score store. -/
structure DS where
  disk : List (String × DeckFile)
  registry : List (Nat × (String × Nat))
  reverse : List ((String × Nat) × Nat)
  next_sid : Nat
  scores : ScoreStore
deriving DecidableEq

/-- `DeckStorage._load`: parse a deck file.  `none` is the `OSError` or
`JSONDecodeError` the source raises for a missing, unreadable or corrupt
file. -/
def DS.load (st : DS) (p : String) : Option DeckData :=
  match lookupIn st.disk p with
  | some (DeckFile.good d) => some d
  | _ => none

/-- `DeckStorage._save`: write a deck file to disk. -/
def DS.save (st : DS) (p : String) (d : DeckData) : DS :=
  { st with disk := setIn st.disk p (DeckFile.good d) }

/-- `DeckStorage._find`: the first card with the given local id in a loaded
card list, together with its index, or `none` when absent. -/
def findCard : List StoredCard → Nat → Option (Nat × StoredCard)
  | [], _ => none
  | c :: rest, lid =>
    if c.id = lid then some (0, c)
    else (findCard rest lid).map (fun x => (x.1 + 1, x.2))

/-- `DeckStorage._get_sid`: the session id for a `(deck_path, local_id)`
pair, allocating and caching a fresh one on first access. -/
def DS.get_sid (st : DS) (p : String) (lid : Nat) : Nat × DS :=
  match lookupIn st.reverse (p, lid) with
  | some sid => (sid, st)
  | none =>
    (st.next_sid,
      { st with
        registry := st.registry ++ [(st.next_sid, (p, lid))]
        reverse := st.reverse ++ [((p, lid), st.next_sid)]
        next_sid := st.next_sid + 1 })

/-- `DeckStorage._resolve`: the `(deck_path, local_id)` pair for a session
id; `none` is the `KeyError` raised for an unregistered id. -/
def DS.resolve (st : DS) (sid : Nat) : Option (String × Nat) :=
  lookupIn st.registry sid

/-- `DeckStorage.delete_deck`: remove the deck's file, collect every session
id registered to this deck, and pop each one from both directions of the
registry. -/
def DS.delete_deck (st : DS) (p : String) : DS :=
  { st with
    disk := st.disk.filter (fun e => decide (e.1 ≠ p))
    registry := st.registry.filter (fun e => decide (e.2.1 ≠ p))
    reverse := st.reverse.filter (fun e =>
      !(decide (e.1.1 = p) && st.registry.any (fun r => decide (r.2 = e.1)))) }

/-- A card as the storage layer hands it upward: the fixed-length tuple
indexed by the C_* constants.  The JSON-string encoding of choices inside
the tuple is kept as the optional list it encodes. -/
structure CardTuple where
  sid : Nat
  front : String
  back : String
  correct : Nat
  incorrect : Nat
  card_type : String
  choices_json : Option (List String)
deriving DecidableEq

/-- `DeckStorage._to_tuple`: resolve or allocate the session id, attach the
externally stored score, and keep the choices only when present and
non-empty (`json.dumps(card["choices"]) if card.get("choices") else None`). -/
def DS.to_tuple (st : DS) (p : String) (c : StoredCard) : CardTuple × DS :=
  let r := st.get_sid p c.id
  let sc := r.2.scores.get p c.id
  (⟨r.1, c.front, c.back, sc.1, sc.2, c.card_type,
    match c.choices with
    | some cs => if cs = [] then none else some cs
    | none => none⟩, r.2)

/-- `DeckStorage.get_card_by_id`: resolve the session id, load the deck and
find the card; every failure (`KeyError`, `OSError`, `JSONDecodeError`, card
not found) yields an absent result rather than an error. -/
def DS.get_card_by_id (st : DS) (sid : Nat) : Option CardTuple × DS :=
  match st.resolve sid with
  | none => (none, st)
  | some (p, lid) =>
    match st.load p with
    | none => (none, st)
    | some data =>
      match findCard data.cards lid with
      | none => (none, st)
      | some (_, c) =>
        let r := st.to_tuple p c
        (some r.1, r.2)

/-- `DeckStorage.create_card`: assign `local_id = next_id`, append, bump the
counter, persist, and return the session id. `none` is the error raised when
the deck file cannot be loaded. -/
def DS.create_card (st : DS) (p : String) (front back card_type : String)
    (choices : Option (List String)) : Option (Nat × DS) :=
  match st.load p with
  | none => none
  | some data =>
    let lid := data.next_id
    let st' := st.save p
      { data with
        cards := data.cards ++ [⟨lid, front, back, card_type, choices, []⟩]
        next_id := lid + 1 }
    some (st'.get_sid p lid)

/-- `DeckStorage.update_card`: resolve and load (either may raise), then
update the card in place when it still exists; when the card is gone from
the loaded deck the update is dropped without writing. -/
def DS.update_card (st : DS) (sid : Nat) (front back card_type : String)
    (choices : Option (List String)) : Option DS :=
  match st.resolve sid with
  | none => none
  | some (p, lid) =>
    match st.load p with
    | none => none
    | some data =>
      match findCard data.cards lid with
      | none => some st
      | some (idx, c) =>
        some (st.save p
          { data with
            cards := data.cards.set idx
              { c with front := front, back := back, card_type := card_type,
                       choices := choices } })

/-- Tag normalization (`[t.strip().lower() for t in tags if t.strip()]`). -/
def normalizeTags (tags : List String) : List String :=
  tags.filterMap (fun t => if t.trim = "" then none else some t.trim.toLower)

/-- `DeckStorage.set_card_tags`: resolve and load (either may raise); write
the normalized tags when the card still exists, silently no-op when it is
gone. -/
def DS.set_card_tags (st : DS) (sid : Nat) (tags : List String) : Option DS :=
  match st.resolve sid with
  | none => none
  | some (p, lid) =>
    match st.load p with
    | none => none
    | some data =>
      match findCard data.cards lid with
      | none => some st
      | some (idx, c) =>
        some (st.save p
          { data with cards := data.cards.set idx { c with tags := normalizeTags tags } })

/-- `DeckStorage.record_correct`: resolve the session id (may raise
`KeyError`) and delegate to the score store. -/
def DS.record_correct (st : DS) (sid : Nat) : Option DS :=
  match st.resolve sid with
  | none => none
  | some (p, lid) => some { st with scores := st.scores.record_correct p lid }

/-- `DeckStorage.record_incorrect`: symmetric to `DS.record_correct`. -/
def DS.record_incorrect (st : DS) (sid : Nat) : Option DS :=
  match st.resolve sid with
  | none => none
  | some (p, lid) => some { st with scores := st.scores.record_incorrect p lid }

/-- A card dict as the controller hands it to the view (`_tuple_to_card`):
choices normalised to a plain list, empty for free-response cards. -/
structure Card where
  id : Nat
  front : String
  back : String
  correct : Nat
  incorrect : Nat
  type : String
  choices : List String
deriving DecidableEq

/-- The controller's study-session fields (the `_study_*` attributes). -/
structure Study where
  cards : List Card
  original : List Card
  index : Nat
  showing_front : Bool
  scored : Bool
  title : String
  order : String
deriving DecidableEq

/-- The controller together with its storage layer (`AppController.db`). -/
structure App where
  db : DS
  study : Study
deriving DecidableEq

/-- The state snapshot `get_study_state` returns for the view to render;
`none` is the index error raised when no session is active. -/
structure Snapshot where
  title : String
  card : Card
  index : Nat
  total : Nat
  showing_front : Bool
  scored : Bool
  order : String
deriving DecidableEq

/-- `AppController.get_study_state`: the pure read of the session. -/
def get_study_state (s : Study) : Option Snapshot :=
  match s.cards[s.index]? with
  | none => none
  | some c =>
    some ⟨s.title, c, s.index, s.cards.length, s.showing_front, s.scored, s.order⟩

/-- `AppController.start_study`: snapshot the incoming order into
`_study_original_cards`, then shuffle the working copy (`shuf` stands for
`random.shuffle`) and reset index, flip, scored and order mode. -/
def start_study (shuf : List Card → List Card) (cards : List Card) (title : String) :
    Study :=
  { cards := shuf cards, original := cards, index := 0,
    showing_front := true, scored := false, title := title, order := "Random" }

/-- `AppController.flip_card`: `some (none, s)` is the `return None` sentinel
for a multiple-choice card; on a free card the front flag is cleared when
still showing the front, and the state snapshot is returned either way. -/
def flip_card (s : Study) : Option (Option Snapshot × Study) :=
  match s.cards[s.index]? with
  | none => none
  | some card =>
    if card.type = "mc" then some (none, s)
    else
      let s' := if s.showing_front then { s with showing_front := false } else s
      some (get_study_state s', s')

/-- The result dict of `submit_mc_answer`. -/
structure McResult where
  is_correct : Bool
  correct_answer : String
  state : Option Snapshot
deriving DecidableEq

/-- `AppController.submit_mc_answer`: `some (none, a)` is the `return None`
sentinel for an already scored card; otherwise the guess is compared to the
card's back, recorded through the storage layer, the in-memory card is
bumped and the scored flag set. -/
def submit_mc_answer (a : App) (chosen : String) : Option (Option McResult × App) :=
  if a.study.scored then some (none, a)
  else
    match a.study.cards[a.study.index]? with
    | none => none
    | some card =>
      let ic : Bool := chosen == card.back
      match (if ic then a.db.record_correct card.id else a.db.record_incorrect card.id) with
      | none => none
      | some db' =>
        let card' := if ic then { card with correct := card.correct + 1 }
                     else { card with incorrect := card.incorrect + 1 }
        let study' := { a.study with
          cards := a.study.cards.set a.study.index card', scored := true }
        some (some ⟨ic, card'.back, get_study_state study'⟩, ⟨db', study'⟩)

/-- `AppController.mark_correct`: record the current card as correct through
the storage layer, bump the in-memory counter and set the scored flag.  No
guard on the scored flag appears in the source. -/
def mark_correct (a : App) : Option App :=
  match a.study.cards[a.study.index]? with
  | none => none
  | some card =>
    match a.db.record_correct card.id with
    | none => none
    | some db' =>
      some ⟨db', { a.study with
        cards := a.study.cards.set a.study.index { card with correct := card.correct + 1 }
        scored := true }⟩

/-- `AppController.mark_incorrect`: symmetric to `mark_correct`. -/
def mark_incorrect (a : App) : Option App :=
  match a.study.cards[a.study.index]? with
  | none => none
  | some card =>
    match a.db.record_incorrect card.id with
    | none => none
    | some db' =>
      some ⟨db', { a.study with
        cards := a.study.cards.set a.study.index { card with incorrect := card.incorrect + 1 }
        scored := true }⟩

/-- `AppController.next_card`: `(index + 1) % len(cards)` with flip and
scored state reset; `none` is the division-by-zero error on an empty list. -/
def next_card (s : Study) : Option Study :=
  if s.cards.length = 0 then none
  else some { s with index := (s.index + 1) % s.cards.length,
                     showing_front := true, scored := false }

/-- `AppController.prev_card`: `(index - 1) % len(cards)` under Python's
nonnegative remainder, with flip and scored state reset. -/
def prev_card (s : Study) : Option Study :=
  if s.cards.length = 0 then none
  else some { s with index := (((s.index : Int) - 1).emod (s.cards.length : Int)).toNat,
                     showing_front := true, scored := false }

/-- The `Lowest-scored` sort key (`score_key` inside `set_study_order`): the
ratio correct/(correct+incorrect), or the sentinel -1 for a card with no
attempts.  The source computes the ratio in floating point; it is embedded
as the exact rational, which orders the sentinel below every ratio exactly
as the source does. -/
def scoreKey (c : Card) : ℚ :=
  if 0 < c.correct + c.incorrect then
    (c.correct : ℚ) / ((c.correct : ℚ) + (c.incorrect : ℚ))
  else -1

/-- Position of the first occurrence of a value in a list of ids (the
length of the list when absent). -/
def posOf : List Nat → Nat → Nat
  | [], _ => 0
  | j :: rest, i => if j = i then 0 else posOf rest i + 1

/-- The rank map built by the `Original` branch of `set_study_order`
(`id_rank`): the position of a card id in the session-start snapshot.  The
source dict raises `KeyError` for an id absent from the snapshot (a case the
session invariant — ids are a permutation of the snapshot's — excludes), and
keeps the last position for a duplicated id where this embedding keeps the
first; under the invariant's distinct ids the two agree. -/
def idRank (orig : List Card) (i : Nat) : Nat := posOf (orig.map Card.id) i

/-- `AppController.set_study_order`: re-sort the working list per mode and
restart from card 0 with flip and scored state reset.  Python's `sorted` is
a stable sort, embedded as `List.mergeSort`; any mode other than `Original`
and `Random` takes the `Lowest-scored` branch, as in the source. -/
def set_study_order (shuf : List Card → List Card) (mode : String) (s : Study) : Study :=
  let cards' :=
    if mode = "Original" then
      s.cards.mergeSort (fun a b => decide (idRank s.original a.id ≤ idRank s.original b.id))
    else if mode = "Random" then shuf s.cards
    else
      s.cards.mergeSort (fun a b => decide (scoreKey a ≤ scoreKey b))
  { s with order := mode, cards := cards', index := 0,
           showing_front := true, scored := false }

/-- The controller's `(ok, value)` result pair for `save_card`. -/
inductive SaveResult
  | ok (sid : Nat)
  | err (msg : String)
deriving DecidableEq

/-- Parse a raw comma-separated tag string
(`[t.strip() for t in raw.split(",") if t.strip()]`). -/
def parseTags (raw : String) : List String :=
  (raw.splitOn ",").filterMap (fun t => if t.trim = "" then none else some t.trim)

/-- `AppController.save_card`: validate, then create or update through the
storage layer.  Validation failures return an `err` result with the state
untouched; storage-layer exceptions propagate as `none`. -/
def save_card (a : App) (deck_path : Option String) (card_id : Option Nat)
    (front back card_type : String) (wrong_choices : List String) (tags_str : String) :
    Option (SaveResult × App) :=
  if front = "" ∨ back = "" then some (.err "Front and answer are required.", a)
  else if card_type = "mc" ∧ wrong_choices = [] then
    some (.err "Add at least 1 wrong choice for multiple choice.", a)
  else
    let choices : Option (List String) :=
      if card_type = "mc" then some wrong_choices else none
    let tags := parseTags tags_str
    match card_id with
    | some cid =>
      match a.db.update_card cid front back card_type choices with
      | none => none
      | some db1 =>
        match db1.set_card_tags cid tags with
        | none => none
        | some db2 => some (.ok cid, { a with db := db2 })
    | none =>
      match deck_path with
      | none => none
      | some dp =>
        match a.db.create_card dp front back card_type choices with
        | none => none
        | some (sid, db1) =>
          match db1.set_card_tags sid tags with
          | none => none
          | some db2 => some (.ok sid, { a with db := db2 })

/-! Further score-store lemmas used by the controller claims. -/

theorem ScoreStore.getS_record_correct_ne (s : ScoreStore) (deck : String) (lid : Nat)
    (q k : String) (h : (q, k) ≠ (deck, toString lid)) :
    (s.record_correct deck lid).getS q k = s.getS q k := by
  by_cases hq : q = deck
  · subst hq
    have hk : k ≠ toString lid := by
      intro hk; exact h (by rw [hk])
    simp only [ScoreStore.getS, ScoreStore.record_correct, getIn,
      lookupIn_setIn_self, lookupIn_setIn_ne _ _ _ _ hk, Option.getD_some]
  · simp only [ScoreStore.getS, ScoreStore.record_correct, getIn,
      lookupIn_setIn_ne _ _ _ _ hq]

theorem ScoreStore.getS_record_incorrect_ne (s : ScoreStore) (deck : String) (lid : Nat)
    (q k : String) (h : (q, k) ≠ (deck, toString lid)) :
    (s.record_incorrect deck lid).getS q k = s.getS q k := by
  by_cases hq : q = deck
  · subst hq
    have hk : k ≠ toString lid := by
      intro hk; exact h (by rw [hk])
    simp only [ScoreStore.getS, ScoreStore.record_incorrect, getIn,
      lookupIn_setIn_self, lookupIn_setIn_ne _ _ _ _ hk, Option.getD_some]
  · simp only [ScoreStore.getS, ScoreStore.record_incorrect, getIn,
      lookupIn_setIn_ne _ _ _ _ hq]

/-- A call of `submit_mc_answer` on an already scored card is the `return
None` sentinel with no state change. -/
theorem submit_mc_of_scored (a : App) (chosen : String) (h : a.study.scored = true) :
    submit_mc_answer a chosen = some (none, a) := by
  simp [submit_mc_answer, h]

/-! Small concrete states used to instantiate hypotheses. -/

/-- A minimal application state with empty storage and no session. -/
def app0 : App :=
  ⟨⟨[], [], [], 1, ⟨[]⟩⟩, ⟨[], [], 0, true, false, "", "Random"⟩⟩

/-- A plain free-response card with a given local id. -/
def cardW (n : Nat) : Card := ⟨n, "Q", "A", 0, 0, "free", []⟩

/-- A five-card session currently on the last card. -/
def studyW5 : Study :=
  ⟨[cardW 1, cardW 2, cardW 3, cardW 4, cardW 5],
   [cardW 1, cardW 2, cardW 3, cardW 4, cardW 5], 4, true, false, "T", "Random"⟩

/-- C7: with at least one card, `next_card` moves the index to
`(i + 1) % count` and `prev_card` to `(i - 1) mod count` (Python's
nonnegative remainder), so next from the last card wraps to 0, prev from 0
wraps to the last index, a one-card session wraps to itself, and both calls
reset the front flag and clear the scored flag while leaving the card list
untouched. -/
theorem nav_wraparound (s : Study) (h : 1 ≤ s.cards.length) :
    ∃ sn sp, next_card s = some sn ∧ prev_card s = some sp ∧
      sn.index = (s.index + 1) % s.cards.length ∧
      sp.index = (((s.index : Int) - 1).emod (s.cards.length : Int)).toNat ∧
      (s.index = s.cards.length - 1 → sn.index = 0) ∧
      (s.index = 0 → sp.index = s.cards.length - 1) ∧
      (s.cards.length = 1 → sn.index = 0 ∧ sp.index = 0) ∧
      sn.showing_front = true ∧ sn.scored = false ∧
      sp.showing_front = true ∧ sp.scored = false ∧
      sn.cards = s.cards ∧ sp.cards = s.cards := by
  have hl : ¬ s.cards.length = 0 := by omega
  let sn : Study :=
    { s with index := (s.index + 1) % s.cards.length, showing_front := true, scored := false }
  let sp : Study :=
    { s with index := (((s.index : Int) - 1).emod (s.cards.length : Int)).toNat,
             showing_front := true, scored := false }
  refine ⟨sn, sp,
    (by rw [next_card, if_neg hl]), (by rw [prev_card, if_neg hl]),
    rfl, rfl, ?_, ?_, ?_, rfl, rfl, rfl, rfl, rfl, rfl⟩
  · intro hi
    show (s.index + 1) % s.cards.length = 0
    have he : s.index + 1 = s.cards.length := by omega
    rw [he, Nat.mod_self]
  · intro hi
    show (((s.index : Int) - 1).emod (s.cards.length : Int)).toNat = s.cards.length - 1
    rw [hi, Nat.cast_zero]
    have h2 : ((0 : Int) - 1).emod (s.cards.length : Int)
        = (s.cards.length : Int) - 1 := by
      have h1 : ((0 : Int) - 1)
          = ((s.cards.length : Int) - 1) + (s.cards.length : Int) * (-1) := by ring
      rw [h1]
      show (((s.cards.length : Int) - 1) + (s.cards.length : Int) * (-1))
          % (s.cards.length : Int) = (s.cards.length : Int) - 1
      rw [Int.add_mul_emod_self_left]
      exact Int.emod_eq_of_lt (by omega) (by omega)
    rw [h2]
    omega
  · intro h1
    constructor
    · show (s.index + 1) % s.cards.length = 0
      rw [h1, Nat.mod_one]
    · show (((s.index : Int) - 1).emod (s.cards.length : Int)).toNat = 0
      rw [h1]
      show (((s.index : Int) - 1) % ((1 : Nat) : Int)).toNat = 0
      push_cast
      omega

/-- Witness for C7 at a concrete five-card session on its last card. -/
theorem nav_wraparound_witness :
    ∃ sn sp, next_card studyW5 = some sn ∧ prev_card studyW5 = some sp ∧
      sn.index = (studyW5.index + 1) % studyW5.cards.length ∧
      sp.index = (((studyW5.index : Int) - 1).emod (studyW5.cards.length : Int)).toNat ∧
      (studyW5.index = studyW5.cards.length - 1 → sn.index = 0) ∧
      (studyW5.index = 0 → sp.index = studyW5.cards.length - 1) ∧
      (studyW5.cards.length = 1 → sn.index = 0 ∧ sp.index = 0) ∧
      sn.showing_front = true ∧ sn.scored = false ∧
      sp.showing_front = true ∧ sp.scored = false ∧
      sn.cards = studyW5.cards ∧ sp.cards = studyW5.cards :=
  nav_wraparound studyW5 (by decide)

/-- A plain free-response card, already flipped, for the flip claim. -/
def flipCard0 : Card := ⟨1, "Q", "A", 0, 0, "free", []⟩

/-- A session showing `flipCard0` with the front already flipped away. -/
def flipStudy0 : Study := ⟨[flipCard0], [flipCard0], 0, false, false, "T", "Random"⟩

/-- A session showing `flipCard0` still on its front. -/
def flipStudy1 : Study := ⟨[flipCard0], [flipCard0], 0, true, false, "T", "Random"⟩

/-- C10 counterexample: on a free-response card that is already flipped,
`flip_card` does not return the not-applicable sentinel `None`: it returns
the state snapshot again (the state itself is unchanged). -/
theorem flip_card_flipped_not_sentinel :
    flip_card flipStudy0
      = some (some ⟨"T", flipCard0, 0, 1, false, false, "Random"⟩, flipStudy0) ∧
    flip_card flipStudy0 ≠ some (none, flipStudy0) := by
  constructor
  · rfl
  · decide

/-- C10 (amended): `flip_card` returns the `None` sentinel exactly on
multiple-choice cards, with no state change; on a free card showing its
front it clears the front flag (leaving every other session field, including
the scored flag, unchanged) and returns the new snapshot; on an already
flipped free card it changes no state but returns the current snapshot, not
the sentinel. -/
theorem flip_card_spec (s : Study) (c : Card) (h : s.cards[s.index]? = some c) :
    (c.type = "mc" → flip_card s = some (none, s)) ∧
    (c.type ≠ "mc" → s.showing_front = true →
      flip_card s = some (get_study_state { s with showing_front := false },
                          { s with showing_front := false })) ∧
    (c.type ≠ "mc" → s.showing_front = false →
      flip_card s = some (get_study_state s, s)) := by
  refine ⟨fun hmc => ?_, fun hmc hf => ?_, fun hmc hf => ?_⟩
  · simp [flip_card, h, hmc]
  · simp [flip_card, h, hmc, hf]
  · simp [flip_card, h, hmc, hf]

/-- Witness for the amended C10 at a concrete front-showing free card. -/
theorem flip_card_spec_witness :
    (flipCard0.type = "mc" → flip_card flipStudy1 = some (none, flipStudy1)) ∧
    (flipCard0.type ≠ "mc" → flipStudy1.showing_front = true →
      flip_card flipStudy1
        = some (get_study_state { flipStudy1 with showing_front := false },
                { flipStudy1 with showing_front := false })) ∧
    (flipCard0.type ≠ "mc" → flipStudy1.showing_front = false →
      flip_card flipStudy1 = some (get_study_state flipStudy1, flipStudy1)) :=
  flip_card_spec flipStudy1 flipCard0 rfl

/-- A deck-storage state with one registered free card whose tally already
stands at one correct answer. -/
def dsC3 : DS :=
  ⟨[("d.json", DeckFile.good ⟨"D", [], 2, [⟨1, "Q", "A", "free", none, []⟩]⟩)],
   [(1, ("d.json", 1))], [(("d.json", 1), 1)], 2,
   ⟨[("d.json", [("1", (1, 0))])]⟩⟩

/-- A session whose current free card has already been judged this viewing
(the scored flag is set). -/
def appC3 : App :=
  ⟨dsC3, ⟨[⟨1, "Q", "A", 1, 0, "free", []⟩], [⟨1, "Q", "A", 1, 0, "free", []⟩],
          0, false, true, "T", "Random"⟩⟩

/-- C3 counterexample: with the scored flag already set for the current
viewing, a further `mark_correct` call still records an additional
increment — the stored tally moves from (1, 0) to (2, 0), so judgment can be
recorded twice per viewing through `mark_correct`. -/
theorem mark_correct_double_scoring :
    appC3.study.scored = true ∧
    appC3.db.scores.get "d.json" 1 = (1, 0) ∧
    (mark_correct appC3).map (fun a' => a'.db.scores.get "d.json" 1) = some (2, 0) := by
  decide

/-- C3 (amended): once the scored flag is set for the current viewing, a
further `submit_mc_answer` call is a sentinel no-op that records nothing;
`mark_correct` and `mark_incorrect` carry no such guard in the controller
and record again on every call, so the once-per-viewing guarantee holds only
for multiple-choice scoring. -/
theorem submit_mc_scored_noop (a : App) (chosen : String) (h : a.study.scored = true) :
    submit_mc_answer a chosen = some (none, a) :=
  submit_mc_of_scored a chosen h

/-- Witness for the amended C3 at the concrete scored session. -/
theorem submit_mc_scored_noop_witness :
    submit_mc_answer appC3 "A" = some (none, appC3) :=
  submit_mc_scored_noop appC3 "A" rfl

/-- C4: saving a new multiple-choice card with an empty wrong-choices list
is a structured validation failure — the `(False, message)` pair, not an
exception — and the returned state is the input state, so no deck content
changes and no card is persisted. -/
theorem save_card_mc_empty_choices (a : App) (dp : Option String) (cid : Option Nat)
    (front back tags_str : String) (hf : front ≠ "") (hb : back ≠ "") :
    save_card a dp cid front back "mc" [] tags_str
      = some (.err "Add at least 1 wrong choice for multiple choice.", a) := by
  simp [save_card, hf, hb]

/-- Witness for C4 at a concrete state and inputs. -/
theorem save_card_mc_empty_choices_witness :
    save_card app0 (some "d.json") none "Q" "A" "mc" [] ""
      = some (.err "Add at least 1 wrong choice for multiple choice.", app0) :=
  save_card_mc_empty_choices app0 (some "d.json") none "Q" "A" "" (by decide) (by decide)

/-- A deck-storage state with one registered card, about to lose its deck. -/
def dsC9 : DS :=
  ⟨[("d.json", DeckFile.good ⟨"D", [], 2, [⟨1, "Q", "A", "free", none, []⟩]⟩)],
   [(1, ("d.json", 1))], [(("d.json", 1), 1)], 2, ⟨[]⟩⟩

/-- C9 counterexample: after `delete_deck` purges the registry, the stale
session id makes `update_card` raise `KeyError` from `_resolve` (modelled as
`none`) instead of returning silently without error. -/
theorem update_card_stale_raises :
    (dsC9.delete_deck "d.json").update_card 1 "Q2" "A2" "free" none = none := by
  decide

/-- C9 (amended): `update_card` silently drops the update, leaving all decks
unchanged, only when the session id still resolves and the deck file loads
but the card is gone from the loaded card list; an unregistered (stale)
session id — such as one left by a deleted deck or card — raises `KeyError`,
and an unloadable deck raises an I/O or parse error. -/
theorem update_card_semantics (st : DS) (sid : Nat) (front back ct : String)
    (choices : Option (List String)) :
    (st.resolve sid = none → st.update_card sid front back ct choices = none) ∧
    (∀ p lid, st.resolve sid = some (p, lid) → st.load p = none →
      st.update_card sid front back ct choices = none) ∧
    (∀ p lid data, st.resolve sid = some (p, lid) → st.load p = some data →
      findCard data.cards lid = none →
      st.update_card sid front back ct choices = some st) := by
  refine ⟨fun h => ?_, fun p lid h1 h2 => ?_, fun p lid data h1 h2 h3 => ?_⟩
  · simp [DS.update_card, h]
  · simp [DS.update_card, h1, h2]
  · simp [DS.update_card, h1, h2, h3]

/-! Association-list lemmas for the session-id registry. -/

theorem mem_of_lookupIn {κ α : Type} [DecidableEq κ] :
    ∀ (l : List (κ × α)) (k : κ) (v : α), lookupIn l k = some v → (k, v) ∈ l
  | [], _, _, h => by simp [lookupIn] at h
  | e :: rest, k, v, h => by
    by_cases hk : e.1 = k
    · rw [lookupIn, if_pos hk] at h
      injection h with h2
      exact List.mem_cons.mpr (Or.inl (by cases e with | mk a b => simp_all))
    · rw [lookupIn, if_neg hk] at h
      exact List.mem_cons_of_mem _ (mem_of_lookupIn rest k v h)

theorem lookupIn_filter_none {κ α : Type} [DecidableEq κ] (f : κ × α → Bool) (k : κ) :
    ∀ l : List (κ × α), (∀ v : α, (k, v) ∈ l → f (k, v) = false) →
      lookupIn (l.filter f) k = none
  | [], _ => by simp [lookupIn]
  | e :: rest, h => by
    have hrest := lookupIn_filter_none f k rest
      (fun v hv => h v (List.mem_cons_of_mem _ hv))
    cases hfe : f e with
    | false => simpa [List.filter_cons, hfe] using hrest
    | true =>
      rw [List.filter_cons, if_pos hfe, lookupIn]
      by_cases hk : e.1 = k
      · exfalso
        have he : e = (k, e.2) := by cases e with | mk a b => simp_all
        rw [he] at hfe
        rw [h e.2 (he ▸ List.mem_cons_self e rest)] at hfe
        exact Bool.false_ne_true hfe
      · rw [if_neg hk]
        exact hrest

theorem lookupIn_unique {κ α : Type} [DecidableEq κ] :
    ∀ (l : List (κ × α)) (k : κ) (v w : α),
      (l.map Prod.fst).Nodup → lookupIn l k = some v → (k, w) ∈ l → w = v
  | [], _, _, _, _, h, _ => by simp [lookupIn] at h
  | e :: rest, k, v, w, hnd, h, hm => by
    rw [List.map_cons, List.nodup_cons] at hnd
    by_cases hk : e.1 = k
    · rw [lookupIn, if_pos hk] at h
      injection h with h2
      rcases List.mem_cons.mp hm with he | hr
      · cases e with | mk a b => simp_all
      · exact absurd (hk ▸ List.mem_map.mpr ⟨(k, w), hr, rfl⟩) hnd.1
    · rw [lookupIn, if_neg hk] at h
      rcases List.mem_cons.mp hm with he | hr
      · exact absurd (congrArg Prod.fst he.symm) hk
      · exact lookupIn_unique rest k v w hnd.2 h hr

/-- C8: `get_card_by_id` returns an absent result (`None`), not an error,
for a stale session id and for a deck file that is missing, unreadable or
malformed; and `delete_deck` purges both directions of every session-id
registration pointing into the deleted deck, so `get_card_by_id` on any
such id subsequently returns absent. -/
theorem get_card_by_id_absent (st : DS) (sid : Nat) :
    (st.resolve sid = none → (st.get_card_by_id sid).1 = none) ∧
    (∀ p lid, st.resolve sid = some (p, lid) → st.load p = none →
      (st.get_card_by_id sid).1 = none) ∧
    (∀ p lid, (st.registry.map Prod.fst).Nodup →
      st.resolve sid = some (p, lid) →
      (st.delete_deck p).resolve sid = none ∧
      lookupIn (st.delete_deck p).reverse (p, lid) = none ∧
      ((st.delete_deck p).get_card_by_id sid).1 = none) := by
  refine ⟨fun h => by simp [DS.get_card_by_id, h],
          fun p lid h1 h2 => by simp [DS.get_card_by_id, h1, h2],
          fun p lid hnd hres => ?_⟩
  have hmem : (sid, (p, lid)) ∈ st.registry := mem_of_lookupIn _ _ _ hres
  have hreg : (st.delete_deck p).resolve sid = none := by
    apply lookupIn_filter_none
    intro v hv
    have hveq : v = (p, lid) := lookupIn_unique st.registry sid (p, lid) v hnd hres hv
    subst hveq
    simp
  have hrev : lookupIn (st.delete_deck p).reverse (p, lid) = none := by
    apply lookupIn_filter_none
    intro v _
    have hany : st.registry.any (fun r => decide (r.2 = (p, lid))) = true :=
      List.any_eq_true.mpr ⟨(sid, (p, lid)), hmem, by simp⟩
    simp [hany]
  exact ⟨hreg, hrev, by simp [DS.get_card_by_id, hreg]⟩

/-- C2 helper: `DeckStorage.record_correct` on a registered session id. -/
theorem DS.record_correct_of_resolve (st : DS) (sid : Nat) (p : String) (lid : Nat)
    (h : st.resolve sid = some (p, lid)) :
    st.record_correct sid = some { st with scores := st.scores.record_correct p lid } := by
  simp [DS.record_correct, h]

/-- C2 helper: `DeckStorage.record_incorrect` on a registered session id. -/
theorem DS.record_incorrect_of_resolve (st : DS) (sid : Nat) (p : String) (lid : Nat)
    (h : st.resolve sid = some (p, lid)) :
    st.record_incorrect sid = some { st with scores := st.scores.record_incorrect p lid } := by
  simp [DS.record_incorrect, h]

/-- C2: on an active session whose current multiple-choice card is unscored,
the first `submit_mc_answer` call records exactly one score increment —
correct exactly when the chosen text equals the card's back, incorrect
otherwise, with every other score-store key untouched — sets the scored
flag, and returns the correctness flag together with the correct-answer
text; a second call before navigating away returns the `None` sentinel and
leaves the state (hence the tallies) unchanged. -/
theorem submit_mc_first_call (a : App) (card : Card) (p : String) (lid : Nat)
    (chosen chosen2 : String)
    (hcard : a.study.cards[a.study.index]? = some card)
    (_hmc : card.type = "mc")
    (hns : a.study.scored = false)
    (hreg : a.db.resolve card.id = some (p, lid)) :
    ∃ r a',
      submit_mc_answer a chosen = some (some r, a') ∧
      (r.is_correct = true ↔ chosen = card.back) ∧
      r.correct_answer = card.back ∧
      a'.study.scored = true ∧
      a'.db.scores.get p lid =
        (if chosen = card.back
         then ((a.db.scores.get p lid).1 + 1, (a.db.scores.get p lid).2)
         else ((a.db.scores.get p lid).1, (a.db.scores.get p lid).2 + 1)) ∧
      (∀ q k, (q, k) ≠ (p, toString lid) →
        a'.db.scores.getS q k = a.db.scores.getS q k) ∧
      submit_mc_answer a' chosen2 = some (none, a') := by
  by_cases hc : chosen = card.back
  · refine ⟨⟨true, card.back, get_study_state
        { a.study with
          cards := a.study.cards.set a.study.index { card with correct := card.correct + 1 },
          scored := true }⟩,
      ⟨{ a.db with scores := a.db.scores.record_correct p lid },
       { a.study with
         cards := a.study.cards.set a.study.index { card with correct := card.correct + 1 },
         scored := true }⟩, ?_, by simp [hc], rfl, rfl, ?_, ?_, ?_⟩
    · simp [submit_mc_answer, hns, hcard, hc,
        DS.record_correct_of_resolve a.db card.id p lid hreg]
    · simp [hc, ScoreStore.get_record_correct_self]
    · intro q k hqk
      exact ScoreStore.getS_record_correct_ne _ _ _ _ _ hqk
    · exact submit_mc_of_scored _ chosen2 rfl
  · refine ⟨⟨false, card.back, get_study_state
        { a.study with
          cards := a.study.cards.set a.study.index { card with incorrect := card.incorrect + 1 },
          scored := true }⟩,
      ⟨{ a.db with scores := a.db.scores.record_incorrect p lid },
       { a.study with
         cards := a.study.cards.set a.study.index { card with incorrect := card.incorrect + 1 },
         scored := true }⟩, ?_, by simp [hc], rfl, rfl, ?_, ?_, ?_⟩
    · simp [submit_mc_answer, hns, hcard, hc,
        DS.record_incorrect_of_resolve a.db card.id p lid hreg]
    · simp [hc, ScoreStore.get_record_incorrect_self]
    · intro q k hqk
      exact ScoreStore.getS_record_incorrect_ne _ _ _ _ _ hqk
    · exact submit_mc_of_scored _ chosen2 rfl

/-- A multiple-choice card for the C2 witness. -/
def cardC2 : Card := ⟨1, "Q", "A", 0, 0, "mc", ["B", "C"]⟩

/-- A storage state with `cardC2` registered as session id 1. -/
def dsC2 : DS :=
  ⟨[("d.json", DeckFile.good ⟨"D", [], 2, [⟨1, "Q", "A", "mc", some ["B", "C"], []⟩]⟩)],
   [(1, ("d.json", 1))], [(("d.json", 1), 1)], 2, ⟨[]⟩⟩

/-- An unscored session currently showing `cardC2`. -/
def appC2 : App := ⟨dsC2, ⟨[cardC2], [cardC2], 0, true, false, "T", "Random"⟩⟩

/-- Witness for C2 at a concrete unscored multiple-choice session. -/
theorem submit_mc_first_call_witness :
    ∃ r a',
      submit_mc_answer appC2 "A" = some (some r, a') ∧
      (r.is_correct = true ↔ "A" = cardC2.back) ∧
      r.correct_answer = cardC2.back ∧
      a'.study.scored = true ∧
      a'.db.scores.get "d.json" 1 =
        (if "A" = cardC2.back
         then ((appC2.db.scores.get "d.json" 1).1 + 1, (appC2.db.scores.get "d.json" 1).2)
         else ((appC2.db.scores.get "d.json" 1).1, (appC2.db.scores.get "d.json" 1).2 + 1)) ∧
      (∀ q k, (q, k) ≠ ("d.json", toString (1 : Nat)) →
        a'.db.scores.getS q k = appC2.db.scores.getS q k) ∧
      submit_mc_answer a' "B" = some (none, a') :=
  submit_mc_first_call appC2 cardC2 "d.json" 1 "A" "B" rfl rfl rfl rfl

/-! Sorting helpers shared by the ordering claims. -/

theorem decide_le_trans {α β : Type} [LinearOrder β] (key : α → β) :
    ∀ a b c : α, decide (key a ≤ key b) = true → decide (key b ≤ key c) = true →
      decide (key a ≤ key c) = true := by
  intro a b c h1 h2
  simp only [decide_eq_true_eq] at *
  exact le_trans h1 h2

theorem decide_le_total {α β : Type} [LinearOrder β] (key : α → β) :
    ∀ a b : α, (decide (key a ≤ key b) || decide (key b ≤ key a)) = true := by
  intro a b
  simpa using le_total (key a) (key b)

/-- A stable sort leaves the subsequence of elements with any one key value
exactly as it stood in the input. -/
theorem mergeSort_filter_stable {α β : Type} [LinearOrder β] [DecidableEq β]
    (key : α → β) (l : List α) (q : β) :
    ((l.mergeSort (fun a b => decide (key a ≤ key b))).filter
        (fun c => decide (key c = q)))
      = l.filter (fun c => decide (key c = q)) := by
  have hpair : (l.filter (fun c => decide (key c = q))).Pairwise
      (fun a b => decide (key a ≤ key b) = true) := by
    apply List.pairwise_of_forall_mem_list
    intro a ha b hb
    have ha' := (List.mem_filter.mp ha).2
    have hb' := (List.mem_filter.mp hb).2
    simp only [decide_eq_true_eq] at ha' hb' ⊢
    rw [ha', hb']
  have hsub : List.Sublist (l.filter (fun c => decide (key c = q)))
      (l.mergeSort (fun a b => decide (key a ≤ key b))) :=
    List.sublist_mergeSort (decide_le_trans key) (decide_le_total key) hpair
      (List.filter_sublist l)
  have hself : (l.filter (fun c => decide (key c = q))).filter
      (fun c => decide (key c = q)) = l.filter (fun c => decide (key c = q)) := by
    apply List.filter_eq_self.mpr
    intro a ha
    exact (List.mem_filter.mp ha).2
  have hsub2 : List.Sublist (l.filter (fun c => decide (key c = q)))
      ((l.mergeSort (fun a b => decide (key a ≤ key b))).filter
          (fun c => decide (key c = q))) := by
    have h2 := hsub.filter (fun c => decide (key c = q))
    rwa [hself] at h2
  have hperm : ((l.mergeSort (fun a b => decide (key a ≤ key b))).filter
      (fun c => decide (key c = q))).Perm (l.filter (fun c => decide (key c = q))) :=
    (List.mergeSort_perm l _).filter _
  exact (hsub2.eq_of_length hperm.length_eq.symm).symm

/-- The `Lowest-scored` branch of `set_study_order` is a stable merge sort
on `scoreKey`. -/
theorem set_study_order_lowest_cards (f : List Card → List Card) (s : Study) :
    (set_study_order f "Lowest-scored" s).cards
      = s.cards.mergeSort (fun a b => decide (scoreKey a ≤ scoreKey b)) := by
  rw [set_study_order]
  rw [if_neg (by decide), if_neg (by decide)]

/-- C6: the lowest-scored order mode stably sorts the working list ascending
by the ratio correct/(correct+incorrect) with the sentinel -1 for cards with
zero attempts: the result is a permutation of the list, pairwise ordered by
the key; the sentinel is strictly below 0 and below every attempted card's
ratio, so every unattempted card precedes every attempted one; and, the sort
being stable, the cards carrying any one key value — in particular the
unattempted cards — keep their prior relative order. -/
theorem lowest_scored_sort (f : List Card → List Card) (s : Study) :
    (set_study_order f "Lowest-scored" s).cards.Perm s.cards ∧
    (set_study_order f "Lowest-scored" s).cards.Pairwise
      (fun a b => scoreKey a ≤ scoreKey b) ∧
    (∀ c : Card, c.correct + c.incorrect = 0 → scoreKey c = -1 ∧ scoreKey c < 0) ∧
    (∀ c c' : Card, c.correct + c.incorrect = 0 → 0 < c'.correct + c'.incorrect →
      scoreKey c < scoreKey c') ∧
    (set_study_order f "Lowest-scored" s).cards.Pairwise
      (fun a b => b.correct + b.incorrect = 0 → a.correct + a.incorrect = 0) ∧
    (∀ q : ℚ,
      (set_study_order f "Lowest-scored" s).cards.filter (fun c => decide (scoreKey c = q))
        = s.cards.filter (fun c => decide (scoreKey c = q))) := by
  have hkey0 : ∀ c : Card, c.correct + c.incorrect = 0 → scoreKey c = -1 := by
    intro c h
    rw [scoreKey, if_neg (by omega)]
  have hkeypos : ∀ c : Card, 0 < c.correct + c.incorrect → 0 ≤ scoreKey c := by
    intro c h
    rw [scoreKey, if_pos h]
    positivity
  have hmode := set_study_order_lowest_cards f s
  have hsorted : (set_study_order f "Lowest-scored" s).cards.Pairwise
      (fun a b => decide (scoreKey a ≤ scoreKey b) = true) := by
    rw [hmode]
    exact List.sorted_mergeSort (decide_le_trans scoreKey) (decide_le_total scoreKey)
      s.cards
  refine ⟨?_, ?_, ?_, ?_, ?_, ?_⟩
  · rw [hmode]; exact List.mergeSort_perm s.cards _
  · exact hsorted.imp (by intro a b h; simpa using h)
  · intro c h
    refine ⟨hkey0 c h, ?_⟩
    rw [hkey0 c h]; norm_num
  · intro c c' h h'
    rw [hkey0 c h]
    exact lt_of_lt_of_le (by norm_num) (hkeypos c' h')
  · refine hsorted.imp ?_
    intro a b hab hb0
    by_contra ha0
    have ha : 0 < a.correct + a.incorrect := by omega
    have h1 : scoreKey a ≤ scoreKey b := by simpa using hab
    rw [hkey0 b hb0] at h1
    have h2 := hkeypos a ha
    linarith
  · intro q
    rw [hmode]
    exact mergeSort_filter_stable scoreKey s.cards q

/-! Position lemmas for the `Original` restoration claim. -/

theorem posOf_lt_length (l : List Nat) (a : Nat) (h : a ∈ l) : posOf l a < l.length := by
  induction l with
  | nil => simp at h
  | cons j rest ih =>
    rw [posOf]
    by_cases hj : j = a
    · rw [if_pos hj]; simp
    · rw [if_neg hj]
      have ha : a ∈ rest := by
        rcases List.mem_cons.mp h with h1 | h1
        · exact absurd h1.symm hj
        · exact h1
      simpa using ih ha

theorem posOf_get : ∀ (l : List Nat), l.Nodup → ∀ i : Fin l.length, posOf l (l.get i) = i.1
  | [], _, i => by exact absurd i.2 (by simp)
  | j :: rest, hnd, ⟨0, hi⟩ => by simp [posOf]
  | j :: rest, hnd, ⟨n + 1, hi⟩ => by
    rw [List.nodup_cons] at hnd
    have hi' : n < rest.length := by simpa using hi
    have hmem : rest.get ⟨n, hi'⟩ ∈ rest := List.get_mem rest n hi'
    have hne : j ≠ rest.get ⟨n, hi'⟩ := fun he => hnd.1 (he ▸ hmem)
    have hg : (j :: rest).get ⟨n + 1, hi⟩ = rest.get ⟨n, hi'⟩ := rfl
    rw [hg, posOf, if_neg hne, posOf_get rest hnd.2 ⟨n, hi'⟩]

theorem posOf_inj : ∀ (l : List Nat) (a b : Nat), a ∈ l → b ∈ l →
    posOf l a = posOf l b → a = b
  | [], a, _, ha, _, _ => by simp at ha
  | j :: rest, a, b, ha, hb, h => by
    by_cases hja : j = a <;> by_cases hjb : j = b
    · rw [← hja, ← hjb]
    · rw [posOf, if_pos hja, posOf, if_neg hjb] at h
      exact absurd h.symm (Nat.succ_ne_zero _)
    · rw [posOf, if_neg hja, posOf, if_pos hjb] at h
      exact absurd h (Nat.succ_ne_zero _)
    · rw [posOf, if_neg hja, posOf, if_neg hjb] at h
      have ha' : a ∈ rest := by
        rcases List.mem_cons.mp ha with h1 | h1
        · exact absurd h1.symm hja
        · exact h1
      have hb' : b ∈ rest := by
        rcases List.mem_cons.mp hb with h1 | h1
        · exact absurd h1.symm hjb
        · exact h1
      exact posOf_inj rest a b ha' hb' (by omega)

/-- Sorting any permutation of a duplicate-free target list by position in
the target restores the target exactly. -/
theorem mergeSort_posOf_restore (ids target : List Nat)
    (hperm : ids.Perm target) (hnd : target.Nodup) :
    ids.mergeSort (fun i j => decide (posOf target i ≤ posOf target j)) = target := by
  haveI hanti : IsAntisymm Nat (fun i j => posOf target i < posOf target j) :=
    ⟨fun a b h1 h2 => absurd (lt_trans h1 h2) (lt_irrefl _)⟩
  have hperm2 : (ids.mergeSort (fun i j => decide (posOf target i ≤ posOf target j))).Perm
      target := (List.mergeSort_perm ids _).trans hperm
  have hmem : ∀ x ∈ ids.mergeSort (fun i j => decide (posOf target i ≤ posOf target j)),
      x ∈ target := fun x hx => hperm2.mem_iff.mp hx
  have hnd2 : (ids.mergeSort (fun i j => decide (posOf target i ≤ posOf target j))).Pairwise
      (fun a b => a ≠ b) := hperm2.nodup_iff.mpr hnd
  have hle : (ids.mergeSort (fun i j => decide (posOf target i ≤ posOf target j))).Pairwise
      (fun i j => posOf target i ≤ posOf target j) :=
    (List.sorted_mergeSort (decide_le_trans (posOf target)) (decide_le_total (posOf target))
      ids).imp (by intro a b h; simpa using h)
  have hlt : (ids.mergeSort (fun i j => decide (posOf target i ≤ posOf target j))).Pairwise
      (fun i j => posOf target i < posOf target j) := by
    refine List.Pairwise.imp_of_mem ?_ (hle.and hnd2)
    intro a b ha hb hab
    rcases lt_or_eq_of_le hab.1 with h | h
    · exact h
    · exact absurd (posOf_inj target a b (hmem a ha) (hmem b hb) h) hab.2
  have htgt : target.Pairwise (fun i j => posOf target i < posOf target j) := by
    rw [List.pairwise_iff_get]
    intro i j hij
    rw [posOf_get target hnd i, posOf_get target hnd j]
    exact hij
  exact List.eq_of_perm_of_sorted hperm2 hlt htgt

/-- The `Original` branch of `set_study_order` restores the ids of the
session-start snapshot in order, whenever the working ids are a permutation
of the snapshot's duplicate-free ids. -/
theorem mergeSort_rank_restore (cur orig : List Card)
    (hperm : (cur.map Card.id).Perm (orig.map Card.id))
    (hnd : (orig.map Card.id).Nodup) :
    (cur.mergeSort (fun a b => decide (idRank orig a.id ≤ idRank orig b.id))).map Card.id
      = orig.map Card.id := by
  have hmap : (cur.mergeSort (fun a b => decide (idRank orig a.id ≤ idRank orig b.id))).map
      Card.id = (cur.map Card.id).mergeSort
        (fun i j => decide (posOf (orig.map Card.id) i ≤ posOf (orig.map Card.id) j)) :=
    List.map_mergeSort (fun _ _ _ _ => rfl)
  rw [hmap]
  exact mergeSort_posOf_restore (cur.map Card.id) (orig.map Card.id) hperm hnd

/-! Field lemmas: how each controller call moves the session fields. -/

theorem list_set_self {α : Type} : ∀ (l : List α) (i : Nat) (v : α),
    l[i]? = some v → l.set i v = l
  | [], _, _, h => by simp at h
  | a :: t, 0, v, h => by
    simp only [List.getElem?_cons_zero, Option.some.injEq] at h
    rw [List.set_cons_zero, ← h]
  | a :: t, i + 1, v, h => by
    simp only [List.getElem?_cons_succ] at h
    rw [List.set_cons_succ, list_set_self t i v h]

theorem map_id_set (l : List Card) (i : Nat) (c c' : Card)
    (h : l[i]? = some c) (hid : c'.id = c.id) :
    (l.set i c').map Card.id = l.map Card.id := by
  rw [List.map_set]
  apply list_set_self
  rw [List.getElem?_map, h]
  simp [hid]

theorem next_card_fields (s st' : Study) (h : next_card s = some st') :
    st'.cards = s.cards ∧ st'.original = s.original := by
  rw [next_card] at h
  by_cases hl : s.cards.length = 0
  · rw [if_pos hl] at h
    exact absurd h (by simp)
  · rw [if_neg hl] at h
    injection h with h2
    rw [← h2]
    exact ⟨rfl, rfl⟩

theorem prev_card_fields (s st' : Study) (h : prev_card s = some st') :
    st'.cards = s.cards ∧ st'.original = s.original := by
  rw [prev_card] at h
  by_cases hl : s.cards.length = 0
  · rw [if_pos hl] at h
    exact absurd h (by simp)
  · rw [if_neg hl] at h
    injection h with h2
    rw [← h2]
    exact ⟨rfl, rfl⟩

theorem flip_card_fields (s : Study) (r : Option Snapshot) (st' : Study)
    (h : flip_card s = some (r, st')) :
    st'.cards = s.cards ∧ st'.original = s.original := by
  cases hc : s.cards[s.index]? with
  | none => simp [flip_card, hc] at h
  | some card =>
    simp only [flip_card, hc] at h
    by_cases hmc : card.type = "mc"
    · rw [if_pos hmc] at h
      simp only [Option.some.injEq, Prod.mk.injEq] at h
      rw [← h.2]
      exact ⟨rfl, rfl⟩
    · rw [if_neg hmc] at h
      simp only [Option.some.injEq, Prod.mk.injEq] at h
      by_cases hf : s.showing_front
      · rw [if_pos hf] at h
        rw [← h.2]
        exact ⟨rfl, rfl⟩
      · rw [if_neg hf] at h
        rw [← h.2]
        exact ⟨rfl, rfl⟩

theorem mark_correct_fields (a a' : App) (h : mark_correct a = some a') :
    a'.study.original = a.study.original ∧
    a'.study.cards.map Card.id = a.study.cards.map Card.id := by
  cases hc : a.study.cards[a.study.index]? with
  | none => simp [mark_correct, hc] at h
  | some card =>
    cases hr : a.db.record_correct card.id with
    | none => simp [mark_correct, hc, hr] at h
    | some db' =>
      simp only [mark_correct, hc, hr, Option.some.injEq] at h
      rw [← h]
      exact ⟨rfl, map_id_set _ _ _ _ hc rfl⟩

theorem mark_incorrect_fields (a a' : App) (h : mark_incorrect a = some a') :
    a'.study.original = a.study.original ∧
    a'.study.cards.map Card.id = a.study.cards.map Card.id := by
  cases hc : a.study.cards[a.study.index]? with
  | none => simp [mark_incorrect, hc] at h
  | some card =>
    cases hr : a.db.record_incorrect card.id with
    | none => simp [mark_incorrect, hc, hr] at h
    | some db' =>
      simp only [mark_incorrect, hc, hr, Option.some.injEq] at h
      rw [← h]
      exact ⟨rfl, map_id_set _ _ _ _ hc rfl⟩

theorem submit_mc_fields (a : App) (chosen : String) (r : Option McResult) (a' : App)
    (h : submit_mc_answer a chosen = some (r, a')) :
    a'.study.original = a.study.original ∧
    a'.study.cards.map Card.id = a.study.cards.map Card.id := by
  cases hs : a.study.scored with
  | true =>
    rw [submit_mc_of_scored a chosen hs] at h
    simp only [Option.some.injEq, Prod.mk.injEq] at h
    rw [← h.2]
    exact ⟨rfl, rfl⟩
  | false =>
    cases hc : a.study.cards[a.study.index]? with
    | none => simp [submit_mc_answer, hs, hc] at h
    | some card =>
      by_cases hcb : chosen = card.back
      · cases hr : a.db.record_correct card.id with
        | none =>
          have hnone : submit_mc_answer a chosen = none := by
            simp [submit_mc_answer, hs, hc, hcb, hr]
          rw [hnone] at h
          exact absurd h (by simp)
        | some db' =>
          have heq : submit_mc_answer a chosen
              = some (some ⟨true, card.back,
                  get_study_state { a.study with cards := a.study.cards.set a.study.index { card with correct := card.correct + 1 }, scored := true }⟩,
                ⟨db', { a.study with cards := a.study.cards.set a.study.index { card with correct := card.correct + 1 }, scored := true }⟩) := by
            simp [submit_mc_answer, hs, hc, hcb, hr]
          rw [heq] at h
          simp only [Option.some.injEq, Prod.mk.injEq] at h
          rw [← h.2]
          exact ⟨rfl, map_id_set _ _ _ _ hc rfl⟩
      · cases hr : a.db.record_incorrect card.id with
        | none =>
          have hnone : submit_mc_answer a chosen = none := by
            simp [submit_mc_answer, hs, hc, hcb, hr]
          rw [hnone] at h
          exact absurd h (by simp)
        | some db' =>
          have heq : submit_mc_answer a chosen
              = some (some ⟨false, card.back,
                  get_study_state { a.study with cards := a.study.cards.set a.study.index { card with incorrect := card.incorrect + 1 }, scored := true }⟩,
                ⟨db', { a.study with cards := a.study.cards.set a.study.index { card with incorrect := card.incorrect + 1 }, scored := true }⟩) := by
            simp [submit_mc_answer, hs, hc, hcb, hr]
          rw [heq] at h
          simp only [Option.some.injEq, Prod.mk.injEq] at h
          rw [← h.2]
          exact ⟨rfl, map_id_set _ _ _ _ hc rfl⟩

theorem set_study_order_cards (f : List Card → List Card) (mode : String) (s : Study) :
    (set_study_order f mode s).cards
      = (if mode = "Original" then
          s.cards.mergeSort (fun a b => decide (idRank s.original a.id ≤ idRank s.original b.id))
         else if mode = "Random" then f s.cards
         else s.cards.mergeSort (fun a b => decide (scoreKey a ≤ scoreKey b))) := rfl

/-- One controller call on the active session: the step relation of the
study state machine, with each `random.shuffle` outcome abstracted as an
arbitrary permutation oracle. -/
inductive Step : App → App → Prop
  | next (a : App) (st' : Study) (h : next_card a.study = some st') : Step a ⟨a.db, st'⟩
  | prev (a : App) (st' : Study) (h : prev_card a.study = some st') : Step a ⟨a.db, st'⟩
  | flip (a : App) (r : Option Snapshot) (st' : Study)
      (h : flip_card a.study = some (r, st')) : Step a ⟨a.db, st'⟩
  | markc (a a' : App) (h : mark_correct a = some a') : Step a a'
  | marki (a a' : App) (h : mark_incorrect a = some a') : Step a a'
  | submit (a : App) (chosen : String) (r : Option McResult) (a' : App)
      (h : submit_mc_answer a chosen = some (r, a')) : Step a a'
  | order (a : App) (mode : String) (f : List Card → List Card)
      (hf : ∀ l : List Card, (f l).Perm l) :
      Step a ⟨a.db, set_study_order f mode a.study⟩

/-- Every single controller call keeps the session-start snapshot intact and
permutes (or leaves alone) the working list's ids. -/
theorem Step.preserves (a a' : App) (h : Step a a') :
    a'.study.original = a.study.original ∧
    (a'.study.cards.map Card.id).Perm (a.study.cards.map Card.id) := by
  cases h with
  | next st' h =>
    obtain ⟨h1, h2⟩ := next_card_fields a.study st' h
    exact ⟨h2, by rw [h1]⟩
  | prev st' h =>
    obtain ⟨h1, h2⟩ := prev_card_fields a.study st' h
    exact ⟨h2, by rw [h1]⟩
  | flip r st' h =>
    obtain ⟨h1, h2⟩ := flip_card_fields a.study r st' h
    exact ⟨h2, by rw [h1]⟩
  | markc a2 h =>
    obtain ⟨h1, h2⟩ := mark_correct_fields _ _ h
    exact ⟨h1, by rw [h2]⟩
  | marki a2 h =>
    obtain ⟨h1, h2⟩ := mark_incorrect_fields _ _ h
    exact ⟨h1, by rw [h2]⟩
  | submit chosen r a2 h =>
    obtain ⟨h1, h2⟩ := submit_mc_fields _ _ _ _ h
    exact ⟨h1, by rw [h2]⟩
  | order mode f hf =>
    refine ⟨rfl, ?_⟩
    rw [set_study_order_cards]
    by_cases h1 : mode = "Original"
    · rw [if_pos h1]
      exact (List.mergeSort_perm a.study.cards _).map Card.id
    · rw [if_neg h1]
      by_cases h2 : mode = "Random"
      · rw [if_pos h2]
        exact (hf a.study.cards).map Card.id
      · rw [if_neg h2]
        exact (List.mergeSort_perm a.study.cards _).map Card.id

/-- The invariant carried along any run of controller calls. -/
theorem reachable_inv (a0 a : App) (h : Relation.ReflTransGen Step a0 a) :
    a.study.original = a0.study.original ∧
    (a.study.cards.map Card.id).Perm (a0.study.cards.map Card.id) := by
  induction h with
  | refl => exact ⟨rfl, List.Perm.refl _⟩
  | tail hsteps hstep ih =>
    obtain ⟨h1, h2⟩ := Step.preserves _ _ hstep
    exact ⟨h1.trans ih.1, h2.trans ih.2⟩

/-- C5: starting from `start_study` on a card list with distinct ids, after
any run of controller calls — further `Random` re-shuffles, ordering
changes, navigation and scoring included — `set_study_order("Original")`
restores the working list to the exact sequence passed into `start_study`,
matched by card id in order (the session-start snapshot is authoritative),
and resets index to 0, the front flag to true and the scored flag to
false. -/
theorem set_order_original_restores (shuf0 f : List Card → List Card)
    (cards : List Card) (title : String) (db0 : DS) (a : App)
    (h0 : ∀ l : List Card, (shuf0 l).Perm l)
    (hnd : (cards.map Card.id).Nodup)
    (hreach : Relation.ReflTransGen Step ⟨db0, start_study shuf0 cards title⟩ a) :
    (set_study_order f "Original" a.study).cards.map Card.id = cards.map Card.id ∧
    (set_study_order f "Original" a.study).index = 0 ∧
    (set_study_order f "Original" a.study).showing_front = true ∧
    (set_study_order f "Original" a.study).scored = false := by
  obtain ⟨horig, hperm⟩ := reachable_inv _ _ hreach
  have horig' : a.study.original = cards := horig
  have hperm' : (a.study.cards.map Card.id).Perm (cards.map Card.id) :=
    hperm.trans ((h0 cards).map Card.id)
  refine ⟨?_, rfl, rfl, rfl⟩
  rw [set_study_order_cards, if_pos rfl, horig']
  exact mergeSort_rank_restore a.study.cards cards hperm' hnd

/-- Witness for C5: the identity shuffle on a concrete two-card list, with
the empty run of controller calls. -/
theorem set_order_original_restores_witness :
    (set_study_order id "Original"
        (App.mk ⟨[], [], [], 1, ⟨[]⟩⟩ (start_study id [cardW 1, cardW 2] "T")).study).cards.map
        Card.id = [cardW 1, cardW 2].map Card.id ∧
    (set_study_order id "Original"
        (App.mk ⟨[], [], [], 1, ⟨[]⟩⟩ (start_study id [cardW 1, cardW 2] "T")).study).index = 0 ∧
    (set_study_order id "Original"
        (App.mk ⟨[], [], [], 1, ⟨[]⟩⟩
          (start_study id [cardW 1, cardW 2] "T")).study).showing_front = true ∧
    (set_study_order id "Original"
        (App.mk ⟨[], [], [], 1, ⟨[]⟩⟩ (start_study id [cardW 1, cardW 2] "T")).study).scored
        = false :=
  set_order_original_restores id id [cardW 1, cardW 2] "T" ⟨[], [], [], 1, ⟨[]⟩⟩
    (App.mk ⟨[], [], [], 1, ⟨[]⟩⟩ (start_study id [cardW 1, cardW 2] "T"))
    (fun l => List.Perm.refl l) (by decide) Relation.ReflTransGen.refl

end Flashcards
